import Mathlib

/-!
Shallow embedding of the turn/cache/tool-dispatch orchestrator of the
`cclient` repository, together with theorems settling the frozen claims.

The embedding follows the Python source:
  * `src/core/cache.py`          — `CacheStats`, `CacheManager`
  * `src/tools/tool_manager.py`  — `ToolManager.handle_tool`, `get_tool_result`
  * `src/message_processor.py`   — `MessageProcessor.process_response`
  * `src/main.py`                — `ClaudeClient.send_message`, `clear_conversation`

Python dicts carrying a `"cache_control"` key are modelled as records with a
boolean `cache_control` field; Python exceptions are modelled with `Except`
(an `Except.error` is a raised exception escaping the function); code that
would raise `IndexError` on an empty block list is modelled with `Option`.
-/

namespace CClient

/-- A content block of a request message (`BetaContentBlockParam` dict in
`core/cache.py`): we keep the `type` and `text` fields and model the
presence of the `"cache_control": {"type": "ephemeral"}` entry as a
boolean. -/
structure CBlock where
  type : String := "text"
  text : String := ""
  cache_control : Bool := false
deriving DecidableEq, Repr

/-- The `content` field of a request message: either a plain string or a
list of blocks (the code checks `isinstance(message["content"], list)`). -/
inductive CContent where
  | str (s : String)
  | blocks (l : List CBlock)
deriving DecidableEq, Repr

/-- A request message (`BetaMessageParam` dict): a `role` and a `content`. -/
structure CMsg where
  role : String
  content : CContent
deriving DecidableEq, Repr

/-- The `CacheStats` dataclass of `core/cache.py`; `last_updated` is a
`datetime`, modelled as an abstract timestamp. -/
structure CacheStats where
  created_tokens : Nat := 0
  read_tokens : Nat := 0
  total_tokens : Nat := 0
  last_updated : Option Nat := none
deriving DecidableEq, Repr

/-- The mutable state of the `CacheManager` class of `core/cache.py`:
`stats`, `last_user_message`, `last_assistant_message`, and the
`_ephemeral_breakpoints` attribute (set to `3` in `__init__` and never
changed). -/
structure CacheManager where
  stats : CacheStats := {}
  last_user_message : Option CMsg := none
  last_assistant_message : Option (List CBlock) := none
  ephemeral_breakpoints : Nat := 3
deriving Repr

/-- Attach the ephemeral cache-control marker to a block, as in
`{**block, "cache_control": {"type": "ephemeral"}}` or
`content[-1]["cache_control"] = ...`. -/
def markBlock (b : CBlock) : CBlock := { b with cache_control := true }

/-- Remove the cache-control marker from a block, as in
`content[-1].pop("cache_control", None)`. -/
def unmarkBlock (b : CBlock) : CBlock := { b with cache_control := false }

/-- Set the marker on the last block of a block list. `content[-1]`
raises `IndexError` on an empty list, modelled as `none`. -/
def setLastMarker (l : List CBlock) : Option (List CBlock) :=
  match l.getLast? with
  | none => none
  | some b => some (l.dropLast ++ [markBlock b])

/-- Remove the marker from the last block of a block list; `none` models
the `IndexError` on an empty list. -/
def popLastMarker (l : List CBlock) : Option (List CBlock) :=
  match l.getLast? with
  | none => none
  | some b => some (l.dropLast ++ [unmarkBlock b])

/-- The body of `CacheManager._inject_cache_control`, operating on the
reversed message list (the Python code iterates `reversed(messages)` and
mutates in place; `break` leaves the remaining, older messages
untouched). `budget` is `breakpoints_remaining`. -/
def injectRev (budget : Nat) : List CMsg → Option (List CMsg)
  | [] => some []
  | m :: rest =>
    if m.role = "user" then
      match m.content with
      | .blocks content =>
        if budget ≠ 0 then
          match setLastMarker content with
          | none => none
          | some c => (injectRev (budget - 1) rest).map (⟨m.role, .blocks c⟩ :: ·)
        else
          match popLastMarker content with
          | none => none
          | some c => some (⟨m.role, .blocks c⟩ :: rest)
      | .str _ => (injectRev budget rest).map (m :: ·)
    else (injectRev budget rest).map (m :: ·)

/-- `CacheManager._inject_cache_control`: scan the message list
most-recent-first with the breakpoint budget. -/
def CacheManager.inject_cache_control (budget : Nat) (messages : List CMsg) :
    Option (List CMsg) :=
  (injectRev budget messages.reverse).map List.reverse

/-- `CacheManager._create_user_message`: a fresh user message with one
text block already carrying the ephemeral marker. -/
def CacheManager.create_user_message (content : String) : CMsg :=
  ⟨"user", .blocks [{ type := "text", text := content, cache_control := true }]⟩

/-- `CacheManager.prepare_messages`: the stored previous user message (if
truthy), the stored previous assistant blocks (if truthy, i.e. a
non-empty list) each re-wrapped with a marker, then the new user message;
finally the cache-control injection. -/
def CacheManager.prepare_messages (st : CacheManager) (new_content : String) :
    Option (List CMsg) :=
  let msgs1 : List CMsg :=
    match st.last_user_message with
    | some m => [m]
    | none => []
  let msgs2 : List CMsg := msgs1 ++
    (match st.last_assistant_message with
     | some bs => if bs.isEmpty then [] else [⟨"assistant", .blocks (bs.map markBlock)⟩]
     | none => [])
  let msgs3 : List CMsg := msgs2 ++ [CacheManager.create_user_message new_content]
  CacheManager.inject_cache_control st.ephemeral_breakpoints msgs3

/-- `CacheManager.clear`: reset `last_user_message`, `last_assistant_message`
and `stats`; the `_ephemeral_breakpoints` attribute is untouched. -/
def CacheManager.clear (st : CacheManager) : CacheManager :=
  { st with last_user_message := none, last_assistant_message := none, stats := {} }

/-- A request message carries an ephemeral cache marker when one of its
content blocks has the `cache_control` entry. -/
def msgHasMarker (m : CMsg) : Bool :=
  match m.content with
  | .str _ => false
  | .blocks l => l.any (·.cache_control)

/-- The structured input of a tool call (`tool_block.input`), a JSON
object modelled as an association list of string fields. -/
abbrev ToolInput := List (String × String)

/-- Modelled from the spec: the `ToolResult` dataclass of `tools/base.py`,
which is not part of the sources here (only its importers are); §3 gives
its fields as `{output: optional text, error: optional text, system:
optional annotation}`. -/
structure ToolResult where
  output : Option String := none
  error : Option String := none
  system : Option String := none
deriving DecidableEq, Repr

/-- Python truthiness of an optional string field: `None` and `""` are
falsy. -/
def strTruthy : Option String → Bool
  | none => false
  | some s => s ≠ ""

/-- Modelled from the spec: truthiness of a `ToolResult` (the `if result:`
check in `message_processor.py`) — the dataclass from the missing
`tools/base.py` is truthy when any of its fields is set and non-empty. -/
def ToolResult.truthy (r : ToolResult) : Bool :=
  strTruthy r.output || strTruthy r.error || strTruthy r.system

/-- An executable tool capability: invoked with structured input, it
either returns a `ToolResult` or raises an exception carrying a message
(`Except.error`). -/
abbrev Tool := ToolInput → Except String ToolResult

/-- The `self.tools` registry of `ToolManager`: tool name to capability. -/
abbrev Registry := List (String × Tool)

/-- The `self._tool_results` dict of `ToolManager`: tool-use id to stored
result. -/
abbrev ResultsMap := List (String × ToolResult)

/-- Dict lookup `self.tools[tool_name]` / the `tool_name not in self.tools`
membership test. -/
def lookupTool (reg : Registry) (name : String) : Option Tool :=
  (reg.find? (·.1 = name)).map (·.2)

/-- Dict assignment `self._tool_results[tool_id] = result`: replace an
existing binding for the key, or add a new one. -/
def storeResult (m : ResultsMap) (id : String) (r : ToolResult) : ResultsMap :=
  if m.any (·.1 = id) then
    m.map (fun p => if p.1 = id then (id, r) else p)
  else m ++ [(id, r)]

/-- `ToolManager.get_tool_result`: `self._tool_results.get(tool_id,
ToolResult())`. -/
def get_tool_result (m : ResultsMap) (id : String) : ToolResult :=
  ((m.find? (·.1 = id)).map (·.2)).getD {}

/-- A `tool_use` content block of a model response (`BetaToolUseBlock`). -/
structure ToolUseBlock where
  id : String
  name : String
  input : ToolInput
deriving DecidableEq, Repr

/-- `ToolManager.handle_tool`: an unknown name raises `ToolError` before
the try block (the error escapes); a registered tool is invoked inside a
try whose except stores `ToolResult(error=str(e))`. The returned value is
the updated `_tool_results` dict. -/
def handle_tool (reg : Registry) (m : ResultsMap) (tb : ToolUseBlock) :
    Except String ResultsMap :=
  match lookupTool reg tb.name with
  | none => .error ("Unknown tool: " ++ tb.name)
  | some tool =>
    match tool tb.input with
    | .ok r => .ok (storeResult m tb.id r)
    | .error e => .ok (storeResult m tb.id { error := some e })

/-- A content unit of a model response, classified by its `type` tag:
`"text"`, `"tool_use"`, or any other kind (which the `if`/`elif` chain of
`process_response` silently skips). -/
inductive RespBlock where
  | text (t : String)
  | toolUse (id name : String) (input : ToolInput)
  | other (kind : String)
deriving DecidableEq, Repr

/-- Whether a response block is a tool invocation. -/
def RespBlock.isToolUse : RespBlock → Bool
  | .toolUse _ _ _ => true
  | _ => false

/-- The `{"type": "tool_result", ...}` dict appended to `tool_content`. -/
structure TRBlock where
  tool_use_id : String
  content : String
  is_error : Bool
deriving DecidableEq, Repr

/-- The `MessageResult` dataclass of `message_processor.py`. -/
structure MessageResult where
  assistant_content : List RespBlock
  has_tool_calls : Bool
  tool_content : List TRBlock
deriving DecidableEq, Repr

/-- The tool-result formatting of `process_response` (lines 42–65): a
truthy stored result yields `is_error = bool(result.error)` and a content
string chosen from the error, the output, or the `"Success but no
output"` marker; a falsy result yields the fallback entry. -/
def mkToolEntry (id : String) (r : ToolResult) : TRBlock :=
  if r.truthy then
    let is_error := strTruthy r.error
    let content :=
      if is_error then
        if strTruthy r.error then "Error: " ++ r.error.getD "" else "Unknown error occurred"
      else
        if strTruthy r.output then r.output.getD "" else "Success but no output"
    ⟨id, content, is_error⟩
  else ⟨id, "Tool execution failed to produce a result", true⟩

/-- `MessageProcessor.process_response`: iterate the response content;
text blocks are passed through to `assistant_content`; `tool_use` blocks
are appended to `assistant_content`, dispatched via `handle_tool` (whose
raised errors propagate), and their stored results formatted into
`tool_content`; other kinds are skipped. The `_tool_results` dict is
threaded through. -/
def process_response (reg : Registry) (m : ResultsMap) :
    List RespBlock → Except String (MessageResult × ResultsMap)
  | [] => .ok (⟨[], false, []⟩, m)
  | b :: rest =>
    match b with
    | .text t =>
      match process_response reg m rest with
      | .error e => .error e
      | .ok (mr, m') => .ok (⟨.text t :: mr.assistant_content, mr.has_tool_calls, mr.tool_content⟩, m')
    | .toolUse id name input =>
      match handle_tool reg m ⟨id, name, input⟩ with
      | .error e => .error e
      | .ok m1 =>
        let r := get_tool_result m1 id
        let entry := mkToolEntry id r
        match process_response reg m1 rest with
        | .error e => .error e
        | .ok (mr, m') =>
          .ok (⟨.toolUse id name input :: mr.assistant_content, true, entry :: mr.tool_content⟩, m')
    | .other _ =>
      match process_response reg m rest with
      | .error e => .error e
      | .ok (mr, m') => .ok (mr, m')

/-- The content of a conversation message in `main.py`: the user's input
string, an assistant response block list, or a tool-results list. -/
inductive MContent where
  | str (s : String)
  | blocks (bs : List RespBlock)
  | toolResults (ts : List TRBlock)
deriving DecidableEq, Repr

/-- A conversation message of `self.messages` in `main.py`. -/
structure Msg where
  role : String
  content : MContent
deriving DecidableEq, Repr

/-- The fallback tool results of `send_message` (lines 192–201): one
`{"content": "", "is_error": True}` entry per `tool_use` block of the
assistant content. -/
def fallbackResults (bs : List RespBlock) : List TRBlock :=
  bs.filterMap fun b =>
    match b with
    | .toolUse id _ _ => some ⟨id, "", true⟩
    | _ => none

/-- The content of the user message appended after tool calls: the
collected `tool_content` if non-empty, else the fallback entries. -/
def toolUserContent (mr : MessageResult) : List TRBlock :=
  if mr.tool_content.isEmpty then fallbackResults mr.assistant_content else mr.tool_content

/-- The `while True` loop body of `ClaudeClient.send_message`, driven by
the finite trace of model responses (one response per model call). Each
round processes a response, appends the assistant message, and — when
tool calls occurred — appends the tool-results user message and loops. A
raised exception is caught by the surrounding `try`, ending the turn with
the conversation as already appended. Returns the conversation and the
number of model calls made. -/
def sendRounds (reg : Registry) : ResultsMap → List Msg → List (List RespBlock) →
    List Msg × Nat
  | _, msgs, [] => (msgs, 0)
  | m, msgs, resp :: rest =>
    match process_response reg m resp with
    | .error _ => (msgs, 1)
    | .ok (mr, m') =>
      let msgs1 := msgs ++ [⟨"assistant", .blocks mr.assistant_content⟩]
      if mr.has_tool_calls then
        let msgs2 := msgs1 ++ [⟨"user", .toolResults (toolUserContent mr)⟩]
        let out := sendRounds reg m' msgs2 rest
        (out.1, out.2 + 1)
      else (msgs1, 1)

/-- `ClaudeClient.send_message`: append the user message with the raw
input string, then run the response loop. -/
def send_message (reg : Registry) (m : ResultsMap) (msgs : List Msg)
    (content : String) (responses : List (List RespBlock)) : List Msg × Nat :=
  sendRounds reg m (msgs ++ [⟨"user", .str content⟩]) responses

/-- The state of a `ClaudeClient` relevant to clearing: the conversation
`self.messages`, the `CacheManager`, and the `_tool_results` dict of the
`ToolManager`. -/
structure ClientState where
  messages : List Msg
  cache : CacheManager
  tool_results : ResultsMap

/-- `ClaudeClient.clear_conversation` (`main.py` lines 264–268): calls
`cache_manager.clear()` and `tool_manager.clear_results()`, then prints
"Conversation and cache cleared." — `self.messages` is not touched. -/
def clear_conversation (s : ClientState) : ClientState :=
  { s with cache := s.cache.clear, tool_results := [] }

/-- Marker-or-identity map describing, message by message, what the
injection does when the budget is never exhausted: a user message with a
non-empty block-list content gets the marker on its last block; every
other message is unchanged (in particular, no marker is removed). -/
def markUserLastTotal (m : CMsg) : CMsg :=
  if m.role = "user" then
    match m.content with
    | .blocks l =>
      match l.getLast? with
      | some b => ⟨m.role, .blocks (l.dropLast ++ [markBlock b])⟩
      | none => m
    | .str _ => m
  else m

/-- A user-role message whose content passes the `isinstance(..., list)`
check — exactly the messages the injection scan touches. -/
def isUserBlocks (m : CMsg) : Bool :=
  m.role = "user" && (match m.content with | .blocks _ => true | .str _ => false)

/-- Number of user-role messages in a message list. -/
def userCount (msgs : List CMsg) : Nat := (msgs.filter (·.role = "user")).length

/-- A message whose block-list content (when it has one) is non-empty —
the data-model invariant of the spec (§3: content is never empty). -/
def msgBlocksNonempty (m : CMsg) : Bool :=
  match m.content with
  | .blocks l => !l.isEmpty
  | .str _ => true

/-- Number of messages `prepare_messages` takes from the stored previous
user message. -/
def lastUserLen (st : CacheManager) : Nat :=
  match st.last_user_message with
  | some _ => 1
  | none => 0

/-- Number of messages `prepare_messages` takes from the stored previous
assistant blocks (a stored empty list is falsy in Python and skipped). -/
def lastAssistantLen (st : CacheManager) : Nat :=
  match st.last_assistant_message with
  | some bs => if bs.isEmpty then 0 else 1
  | none => 0

/-- A user request message with a single text block, optionally already
carrying a marker. -/
def userTextMsg (t : String) (marked : Bool) : CMsg :=
  ⟨"user", .blocks [{ type := "text", text := t, cache_control := marked }]⟩

/-- The ids of the `tool_use` blocks of an assistant content list, in
order. -/
def toolUseIds (bs : List RespBlock) : List String :=
  bs.filterMap fun b =>
    match b with
    | .toolUse id _ _ => some id
    | _ => none

/-- The `tool_use_id`s of a tool-result list, in order. -/
def trIds (ts : List TRBlock) : List String := ts.map (·.tool_use_id)

/-- The text blocks of a response, in order — what `process_response`
collects as assistant content when no tool is invoked (unrecognized
kinds are skipped). -/
def textOnly (resp : List RespBlock) : List RespBlock :=
  resp.filter fun b =>
    match b with
    | .text _ => true
    | _ => false

/-- Pairing invariant on a conversation: every assistant message whose
content holds tool-use blocks is immediately followed by a user message
of tool results whose ids, in order, are exactly the tool-use ids. -/
def toolPaired (msgs : List Msg) : Prop :=
  ∀ i bs, msgs[i]? = some ⟨"assistant", .blocks bs⟩ → toolUseIds bs ≠ [] →
    ∃ ts, msgs[i + 1]? = some ⟨"user", .toolResults ts⟩ ∧ trIds ts = toolUseIds bs

/-- Counting form of the pairing invariant: when the tool-use ids are
distinct, each of them matches exactly one tool-result id in the
following user message. -/
def exactlyOnePaired (msgs : List Msg) : Prop :=
  ∀ i bs ts, msgs[i]? = some ⟨"assistant", .blocks bs⟩ →
    msgs[i + 1]? = some ⟨"user", .toolResults ts⟩ →
    (toolUseIds bs).Nodup →
    ∀ id ∈ toolUseIds bs, (trIds ts).count id = 1

/-- A sample tool that succeeds with output. -/
def demoT1 : Tool := fun _ => .ok { output := some "ok1" }

/-- A sample tool that raises. -/
def demoT2 : Tool := fun _ => .error "boom"

/-- A sample registry with the two sample tools. -/
def demoReg : Registry := [("t1", demoT1), ("t2", demoT2)]

/-- A sample model response invoking both sample tools. -/
def demoResp : List RespBlock := [.toolUse "id1" "t1" [], .toolUse "id2" "t2" []]

/-- The `MessageResult` produced by processing `demoResp` from an empty
results map. -/
def demoMR : MessageResult :=
  ⟨[.toolUse "id1" "t1" [], .toolUse "id2" "t2" []], true,
   [⟨"id1", "ok1", false⟩, ⟨"id2", "Error: boom", true⟩]⟩

/-- The results map produced by processing `demoResp` from an empty
results map. -/
def demoMap : ResultsMap :=
  [("id1", { output := some "ok1" }), ("id2", { error := some "boom" })]

/-! Theorems. First the helper lemmas about the cache-control injection,
then the dispatch and orchestrator lemmas, then one theorem per claim. -/

theorem injectRev_length (b : Nat) (l : List CMsg) :
    ∀ l', injectRev b l = some l' → l'.length = l.length := by
  induction l generalizing b with
  | nil =>
    intro l' h
    simp only [injectRev, Option.some.injEq] at h
    simp [← h]
  | cons m rest ih =>
    intro l' h
    simp only [injectRev] at h
    split at h
    · split at h
      · split at h
        · split at h
          · exact absurd h (by simp)
          · rw [Option.map_eq_some'] at h
            obtain ⟨t, ht, rfl⟩ := h
            simp [ih _ t ht]
        · split at h
          · exact absurd h (by simp)
          · simp only [Option.some.injEq] at h
            simp [← h]
      · rw [Option.map_eq_some'] at h
        obtain ⟨t, ht, rfl⟩ := h
        simp [ih _ t ht]
    · rw [Option.map_eq_some'] at h
      obtain ⟨t, ht, rfl⟩ := h
      simp [ih _ t ht]

theorem inject_cache_control_length (b : Nat) (l l' : List CMsg)
    (h : CacheManager.inject_cache_control b l = some l') : l'.length = l.length := by
  unfold CacheManager.inject_cache_control at h
  rw [Option.map_eq_some'] at h
  obtain ⟨t, ht, rfl⟩ := h
  simpa using injectRev_length b l.reverse t ht

theorem filter_imp_length_le {α : Type} (p q : α → Bool) (h : ∀ x, p x = true → q x = true)
    (l : List α) : (l.filter p).length ≤ (l.filter q).length := by
  induction l with
  | nil => simp
  | cons a t ih =>
    by_cases hp : p a = true
    · simp only [List.filter, hp, h a hp, List.length_cons]
      omega
    · simp only [List.filter, Bool.not_eq_true] at hp ⊢
      rw [hp]
      cases hq : q a <;> simp <;> omega

theorem injectRev_all_marked (b : Nat) (l : List CMsg)
    (hcount : (l.filter isUserBlocks).length ≤ b)
    (hne : ∀ m ∈ l, m.role = "user" → msgBlocksNonempty m = true) :
    injectRev b l = some (l.map markUserLastTotal) := by
  induction l generalizing b with
  | nil => simp [injectRev]
  | cons m rest ih =>
    by_cases hrole : m.role = "user"
    · cases hc : m.content with
      | blocks bl =>
        have hbne : bl ≠ [] := by
          have h0 := hne m (by simp) hrole
          unfold msgBlocksNonempty at h0
          rw [hc] at h0
          simpa using h0
        have hfil : (List.filter isUserBlocks (m :: rest)) =
            m :: List.filter isUserBlocks rest := by
          simp [List.filter, isUserBlocks, hrole, hc]
        have hb : b ≠ 0 := by
          rw [hfil] at hcount
          simp at hcount
          omega
        have hrest : (rest.filter isUserBlocks).length ≤ b - 1 := by
          rw [hfil] at hcount
          simp at hcount
          omega
        obtain ⟨lb, hlb⟩ : ∃ x, bl.getLast? = some x := by
          cases hgl : bl.getLast? with
          | none => exact absurd (List.getLast?_eq_none_iff.mp hgl) hbne
          | some x => exact ⟨x, rfl⟩
        simp only [injectRev, hrole, if_pos rfl, hc, if_pos hb, setLastMarker, hlb]
        rw [ih (b - 1) hrest (fun m hm => hne m (by simp [hm]))]
        simp [Option.map_some', List.map_cons, markUserLastTotal, hrole, hc, hlb]
      | str s =>
        simp only [injectRev, hrole, if_pos rfl, hc]
        have hfil : (List.filter isUserBlocks (m :: rest)) =
            List.filter isUserBlocks rest := by
          simp [List.filter, isUserBlocks, hrole, hc]
        rw [ih b (by rw [hfil] at hcount; exact hcount) (fun m hm => hne m (by simp [hm]))]
        simp [markUserLastTotal, hrole, hc]
    · simp only [injectRev, if_neg hrole]
      have hfil : (List.filter isUserBlocks (m :: rest)) =
          List.filter isUserBlocks rest := by
        simp [List.filter, isUserBlocks, hrole]
      rw [ih b (by rw [hfil] at hcount; exact hcount) (fun m hm => hne m (by simp [hm]))]
      simp [markUserLastTotal, hrole]

theorem prepare_messages_length (st : CacheManager) (content : String)
    (out : List CMsg) (h : st.prepare_messages content = some out) :
    out.length = lastUserLen st + lastAssistantLen st + 1 ∧ out.length ≤ 3 := by
  unfold CacheManager.prepare_messages at h
  have hlen := inject_cache_control_length _ _ _ h
  have heq : out.length = lastUserLen st + lastAssistantLen st + 1 := by
    rw [hlen]
    cases hu : st.last_user_message <;> cases ha : st.last_assistant_message <;>
      simp [lastUserLen, lastAssistantLen, hu, ha]
    · split <;> simp
    · split <;> simp
  refine ⟨heq, ?_⟩
  rw [heq]
  unfold lastUserLen lastAssistantLen
  cases st.last_user_message <;> cases st.last_assistant_message <;> simp <;> split <;> simp

/-- Claim C9: for every message list containing fewer user messages than
the breakpoint budget (3), with non-empty block contents as the data
model requires, the cache-control injection attaches a marker to every
user message's last content block and strips a marker from none of them:
the result is exactly the pointwise `markUserLastTotal` image, which
only ever adds markers. -/
theorem inject_marks_all_users (msgs : List CMsg)
    (hcount : userCount msgs < 3)
    (hne : ∀ m ∈ msgs, m.role = "user" → msgBlocksNonempty m = true) :
    CacheManager.inject_cache_control 3 msgs = some (msgs.map markUserLastTotal) := by
  unfold CacheManager.inject_cache_control
  rw [injectRev_all_marked 3 msgs.reverse ?hc ?hn]
  · simp [List.map_reverse]
  case hc =>
    have h1 : (msgs.reverse.filter isUserBlocks).length = (msgs.filter isUserBlocks).length := by
      rw [List.filter_reverse, List.length_reverse]
    rw [h1]
    have h2 := filter_imp_length_le isUserBlocks (fun m => decide (m.role = "user"))
      (fun x hx => by
        unfold isUserBlocks at hx
        simp only [Bool.and_eq_true] at hx
        exact hx.1) msgs
    unfold userCount at hcount
    omega
  case hn =>
    intro m hm
    exact hne m (List.mem_reverse.mp hm)

/-- Witness for C9: a concrete list with two user messages — both get
markers, nothing is stripped. -/
theorem inject_marks_all_users_witness :
    CacheManager.inject_cache_control 3
      [userTextMsg "a" false, ⟨"assistant", .blocks [{}]⟩, userTextMsg "b" false] =
    some ([userTextMsg "a" false, ⟨"assistant", .blocks [{}]⟩,
           userTextMsg "b" false].map markUserLastTotal) :=
  inject_marks_all_users
    [userTextMsg "a" false, ⟨"assistant", .blocks [{}]⟩, userTextMsg "b" false]
    (by decide) (by decide)

/-- Claim C4: budget 3, five user messages (the two oldest already
carrying markers): the injection marks exactly the three most recent,
strips the marker of the fourth-most-recent, and leaves the oldest
untouched (it keeps its stale marker — the scan stops). -/
theorem inject_budget3_five_users :
    CacheManager.inject_cache_control 3
      [userTextMsg "m1" true, userTextMsg "m2" true, userTextMsg "m3" false,
       userTextMsg "m4" false, userTextMsg "m5" false] =
    some [userTextMsg "m1" true, userTextMsg "m2" false, userTextMsg "m3" true,
          userTextMsg "m4" true, userTextMsg "m5" true] := by
  decide

/-- Claim C3: every request prepared by `prepare_messages` has at most 3
messages, hence at most the configured breakpoint budget (3, the value
set in `__init__`) of messages carrying an ephemeral cache marker. -/
theorem prepared_request_markers_le_budget (st : CacheManager) (content : String)
    (out : List CMsg) (h : st.prepare_messages content = some out)
    (hb : st.ephemeral_breakpoints = 3) :
    (out.filter msgHasMarker).length ≤ st.ephemeral_breakpoints := by
  have hlen := (prepare_messages_length st content out h).2
  calc (out.filter msgHasMarker).length ≤ out.length := List.length_filter_le _ _
    _ ≤ 3 := hlen
    _ = st.ephemeral_breakpoints := hb.symm

/-- Witness for C3: preparing from a fresh `CacheManager`. -/
theorem prepared_request_markers_le_budget_witness :
    (([CacheManager.create_user_message "hi"].filter msgHasMarker)).length ≤
      ({} : CacheManager).ephemeral_breakpoints :=
  prepared_request_markers_le_budget {} "hi" [CacheManager.create_user_message "hi"] rfl rfl

/-- Claim C10: every request prepared by `prepare_messages` consists of
exactly the stored previous user message (if any), the stored previous
assistant message (if any, non-empty), and the new user message — at
most 3 messages, so older conversation history is never included. -/
theorem prepared_request_at_most_three (st : CacheManager) (content : String)
    (out : List CMsg) (h : st.prepare_messages content = some out) :
    out.length = lastUserLen st + lastAssistantLen st + 1 ∧ out.length ≤ 3 :=
  prepare_messages_length st content out h

/-- Witness for C10: preparing from a state holding a previous exchange. -/
theorem prepared_request_at_most_three_witness :
    ([userTextMsg "prev" true,
      (⟨"assistant", .blocks [{ text := "resp", cache_control := true }]⟩ : CMsg),
      userTextMsg "hello" true] : List CMsg).length =
        lastUserLen { last_user_message := some (userTextMsg "prev" true),
                      last_assistant_message := some [{ text := "resp" }] } +
        lastAssistantLen { last_user_message := some (userTextMsg "prev" true),
                           last_assistant_message := some [{ text := "resp" }] } + 1 ∧
    ([userTextMsg "prev" true,
      (⟨"assistant", .blocks [{ text := "resp", cache_control := true }]⟩ : CMsg),
      userTextMsg "hello" true] : List CMsg).length ≤ 3 :=
  prepared_request_at_most_three
    { last_user_message := some (userTextMsg "prev" true),
      last_assistant_message := some [{ text := "resp" }] }
    "hello" _ rfl

theorem find_store_hit (id : String) (r : ToolResult) :
    ∀ m : ResultsMap, m.any (·.1 = id) = true →
      (m.map (fun p => if p.1 = id then (id, r) else p)).find? (·.1 = id) = some (id, r) := by
  intro m
  induction m with
  | nil => simp
  | cons p t ih =>
    intro h
    by_cases hp : p.1 = id
    · simp [List.find?, hp]
    · simp only [List.any_cons, Bool.or_eq_true, decide_eq_true_eq] at h
      rcases h with h | h
      · exact absurd h hp
      · simp only [List.map_cons, if_neg hp, List.find?, decide_eq_false hp]
        exact ih h

theorem find_store_miss (id : String) (r : ToolResult) :
    ∀ m : ResultsMap, m.any (·.1 = id) = false →
      (m ++ [(id, r)]).find? (·.1 = id) = some (id, r) := by
  intro m
  induction m with
  | nil => simp
  | cons p t ih =>
    intro h
    simp only [List.any_cons, Bool.or_eq_false_iff, decide_eq_false_iff_not] at h
    simp only [List.cons_append, List.find?, decide_eq_false h.1]
    exact ih h.2

theorem get_tool_result_store (m : ResultsMap) (id : String) (r : ToolResult) :
    get_tool_result (storeResult m id r) id = r := by
  unfold get_tool_result storeResult
  by_cases h : m.any (·.1 = id) = true
  · rw [if_pos h, find_store_hit id r m h]
    rfl
  · rw [Bool.not_eq_true] at h
    rw [if_neg (by simp [h]), find_store_miss id r m h]
    rfl

theorem mkToolEntry_id (id : String) (r : ToolResult) :
    (mkToolEntry id r).tool_use_id = id := by
  unfold mkToolEntry
  split
  · rfl
  · rfl

theorem process_response_ids (reg : Registry) :
    ∀ (resp : List RespBlock) (m : ResultsMap) (mr : MessageResult) (m' : ResultsMap),
      process_response reg m resp = .ok (mr, m') →
      trIds mr.tool_content = toolUseIds mr.assistant_content ∧
      (mr.has_tool_calls = true ↔ mr.tool_content ≠ []) := by
  intro resp
  induction resp with
  | nil =>
    intro m mr m' h
    simp only [process_response, Except.ok.injEq, Prod.mk.injEq] at h
    obtain ⟨h1, h2⟩ := h
    rw [← h1]
    simp [trIds, toolUseIds]
  | cons b rest ih =>
    intro m mr m' h
    cases b with
    | text t =>
      simp only [process_response] at h
      cases hpr : process_response reg m rest with
      | error e => rw [hpr] at h; exact absurd h (by simp)
      | ok p =>
        obtain ⟨mr0, m0⟩ := p
        rw [hpr] at h
        simp only [Except.ok.injEq, Prod.mk.injEq] at h
        obtain ⟨h1, h2⟩ := h
        obtain ⟨ha, hb⟩ := ih m mr0 m0 hpr
        rw [← h1]
        constructor
        · simpa [trIds, toolUseIds] using ha
        · simpa using hb
    | toolUse id name input =>
      simp only [process_response] at h
      cases hht : handle_tool reg m ⟨id, name, input⟩ with
      | error e => rw [hht] at h; exact absurd h (by simp)
      | ok m1 =>
        rw [hht] at h
        simp only at h
        cases hpr : process_response reg m1 rest with
        | error e => rw [hpr] at h; exact absurd h (by simp)
        | ok p =>
          obtain ⟨mr0, m0⟩ := p
          rw [hpr] at h
          simp only [Except.ok.injEq, Prod.mk.injEq] at h
          obtain ⟨h1, h2⟩ := h
          obtain ⟨ha, hb⟩ := ih m1 mr0 m0 hpr
          rw [← h1]
          constructor
          · simp only [trIds, toolUseIds, List.map_cons, List.filterMap_cons, mkToolEntry_id]
            simp only [trIds, toolUseIds] at ha
            rw [ha]
          · simp
    | other k =>
      simp only [process_response] at h
      cases hpr : process_response reg m rest with
      | error e => rw [hpr] at h; exact absurd h (by simp)
      | ok p =>
        obtain ⟨mr0, m0⟩ := p
        rw [hpr] at h
        simp only [Except.ok.injEq, Prod.mk.injEq] at h
        obtain ⟨h1, h2⟩ := h
        rw [← h1]
        exact ih m mr0 m0 hpr

theorem process_response_no_tools (reg : Registry) :
    ∀ (resp : List RespBlock) (m : ResultsMap),
      (∀ b ∈ resp, b.isToolUse = false) →
      process_response reg m resp = .ok (⟨textOnly resp, false, []⟩, m) := by
  intro resp
  induction resp with
  | nil => intro m _; simp [process_response, textOnly]
  | cons b rest ih =>
    intro m h
    have hrest : ∀ b ∈ rest, b.isToolUse = false := fun b hb => h b (by simp [hb])
    cases b with
    | text t =>
      simp only [process_response, ih m hrest]
      simp [textOnly, List.filter]
    | toolUse id name input =>
      exact absurd (h (.toolUse id name input) (by simp)) (by simp [RespBlock.isToolUse])
    | other k =>
      simp only [process_response, ih m hrest]
      simp [textOnly, List.filter]

theorem toolPaired_append (msgs ext : List Msg) (h : toolPaired msgs)
    (hext : ∀ i bs, ext[i]? = some ⟨"assistant", .blocks bs⟩ → toolUseIds bs ≠ [] →
      ∃ ts, ext[i + 1]? = some ⟨"user", .toolResults ts⟩ ∧ trIds ts = toolUseIds bs) :
    toolPaired (msgs ++ ext) := by
  intro i bs hi hne
  by_cases hlt : i < msgs.length
  · rw [List.getElem?_append_left hlt] at hi
    obtain ⟨ts, hts, hids⟩ := h i bs hi hne
    refine ⟨ts, ?_, hids⟩
    have hlt1 : i + 1 < msgs.length := by
      by_contra hge
      rw [List.getElem?_eq_none (by omega)] at hts
      exact absurd hts (by simp)
    rw [List.getElem?_append_left hlt1]
    exact hts
  · have hge : msgs.length ≤ i := by omega
    rw [List.getElem?_append_right hge] at hi
    obtain ⟨ts, hts, hids⟩ := hext (i - msgs.length) bs hi hne
    refine ⟨ts, ?_, hids⟩
    rw [List.getElem?_append_right (by omega)]
    have harith : i + 1 - msgs.length = (i - msgs.length) + 1 := by omega
    rw [harith]
    exact hts

theorem paired_ext_user (c : MContent) :
    ∀ i bs, ([(⟨"user", c⟩ : Msg)])[i]? = some ⟨"assistant", .blocks bs⟩ →
      toolUseIds bs ≠ [] →
      ∃ ts, ([(⟨"user", c⟩ : Msg)])[i + 1]? = some ⟨"user", .toolResults ts⟩ ∧
        trIds ts = toolUseIds bs := by
  intro i bs hi _
  match i with
  | 0 => simp at hi
  | n + 1 => simp at hi

theorem paired_ext_assistant_no_tools (bs0 : List RespBlock) (h0 : toolUseIds bs0 = []) :
    ∀ i bs, ([(⟨"assistant", .blocks bs0⟩ : Msg)])[i]? = some ⟨"assistant", .blocks bs⟩ →
      toolUseIds bs ≠ [] →
      ∃ ts, ([(⟨"assistant", .blocks bs0⟩ : Msg)])[i + 1]? = some ⟨"user", .toolResults ts⟩ ∧
        trIds ts = toolUseIds bs := by
  intro i bs hi hne
  match i with
  | 0 =>
    simp only [List.getElem?_cons_zero, Option.some.injEq] at hi
    injection hi with h1 h2
    injection h2 with h2
    subst h2
    exact absurd h0 hne
  | n + 1 => simp at hi

theorem paired_ext_assistant_user (bs0 : List RespBlock) (ts0 : List TRBlock)
    (hids : trIds ts0 = toolUseIds bs0) :
    ∀ i bs,
      ([(⟨"assistant", .blocks bs0⟩ : Msg), ⟨"user", .toolResults ts0⟩])[i]? =
        some ⟨"assistant", .blocks bs⟩ →
      toolUseIds bs ≠ [] →
      ∃ ts,
        ([(⟨"assistant", .blocks bs0⟩ : Msg), ⟨"user", .toolResults ts0⟩])[i + 1]? =
          some ⟨"user", .toolResults ts⟩ ∧ trIds ts = toolUseIds bs := by
  intro i bs hi _
  match i with
  | 0 =>
    simp only [List.getElem?_cons_zero, Option.some.injEq] at hi
    injection hi with h1 h2
    injection h2 with h2
    subst h2
    exact ⟨ts0, by simp, hids⟩
  | 1 => simp at hi
  | n + 2 => simp at hi

theorem trIds_fallbackResults (bs : List RespBlock) :
    trIds (fallbackResults bs) = toolUseIds bs := by
  induction bs with
  | nil => simp [trIds, fallbackResults, toolUseIds]
  | cons b rest ih =>
    cases b <;> simp [trIds, fallbackResults, toolUseIds, List.filterMap_cons] <;>
      simpa [trIds, fallbackResults, toolUseIds] using ih

theorem trIds_toolUserContent (mr : MessageResult)
    (h : trIds mr.tool_content = toolUseIds mr.assistant_content) :
    trIds (toolUserContent mr) = toolUseIds mr.assistant_content := by
  unfold toolUserContent
  split
  · exact trIds_fallbackResults mr.assistant_content
  · exact h

theorem sendRounds_paired (reg : Registry) :
    ∀ (responses : List (List RespBlock)) (m : ResultsMap) (msgs : List Msg),
      toolPaired msgs → toolPaired (sendRounds reg m msgs responses).1 := by
  intro responses
  induction responses with
  | nil => intro m msgs h; simpa [sendRounds] using h
  | cons resp rest ih =>
    intro m msgs h
    simp only [sendRounds]
    cases hpr : process_response reg m resp with
    | error e => simpa using h
    | ok p =>
      obtain ⟨mr, m'⟩ := p
      obtain ⟨hids, hflag⟩ := process_response_ids reg resp m mr m' hpr
      by_cases htc : mr.has_tool_calls = true
      · simp only [htc, if_true]
        apply ih
        rw [List.append_assoc]
        exact toolPaired_append msgs _ h
          (by
            simpa using paired_ext_assistant_user mr.assistant_content (toolUserContent mr)
              (trIds_toolUserContent mr hids))
      · simp only [htc, if_false]
        have htc0 : mr.tool_content = [] := by
          by_contra hne
          exact htc (hflag.mpr hne)
        have huse : toolUseIds mr.assistant_content = [] := by
          rw [← hids, htc0]
          rfl
        exact toolPaired_append msgs _ h
          (by simpa using paired_ext_assistant_no_tools mr.assistant_content huse)

theorem toolPaired_exactlyOne (msgs : List Msg) (h : toolPaired msgs) :
    exactlyOnePaired msgs := by
  intro i bs ts hi hts hnd id hid
  by_cases hne : toolUseIds bs = []
  · rw [hne] at hid
    simp at hid
  · obtain ⟨ts', hts', hids'⟩ := h i bs hi hne
    rw [hts] at hts'
    injection hts' with hh
    injection hh with h1 h2
    injection h2 with h2
    subst h2
    rw [hids']
    exact List.count_eq_one_of_mem hnd hid

/-- Claim C1: for every turn (any registry, any tool behavior, any finite
trace of model responses), the conversation produced by `send_message`
satisfies the pairing invariant — every assistant message holding
tool-use blocks is immediately followed by a user message whose
tool-result ids are, in order, exactly the tool-use ids; when the
tool-use ids are distinct each has exactly one matching result. This
holds in all cases, including tool-dispatch failure: a registered tool
raising is converted to an error result, and an unknown tool aborts the
turn before the assistant message is appended. -/
theorem send_message_pairing (reg : Registry) (m : ResultsMap) (msgs : List Msg)
    (content : String) (responses : List (List RespBlock)) (h : toolPaired msgs) :
    toolPaired (send_message reg m msgs content responses).1 ∧
    exactlyOnePaired (send_message reg m msgs content responses).1 := by
  have hp : toolPaired (msgs ++ [⟨"user", .str content⟩]) :=
    toolPaired_append msgs _ h (by simpa using paired_ext_user (.str content))
  have hall := sendRounds_paired reg responses m (msgs ++ [⟨"user", .str content⟩]) hp
  exact ⟨hall, toolPaired_exactlyOne _ hall⟩

/-- Witness for C1: a concrete two-round turn with two tool calls, the
second of which raises. -/
theorem send_message_pairing_witness :
    toolPaired (send_message demoReg [] [] "hi" [demoResp, [.text "done"]]).1 ∧
    exactlyOnePaired (send_message demoReg [] [] "hi" [demoResp, [.text "done"]]).1 :=
  send_message_pairing demoReg [] [] "hi" [demoResp, [.text "done"]]
    (by intro i bs hi hne; simp at hi)

/-- Claim C2, amended: for a tool invocation whose name is not in the
registry, `handle_tool` raises `ToolError` with a message identifying
the unknown name, the exception escapes the dispatch boundary (it is not
converted to a `ToolResult`), propagates out of `process_response`, and
the turn is aborted by `send_message`'s top-level handler with no
further message appended. -/
theorem handle_tool_unknown (reg : Registry) (m : ResultsMap) (tb : ToolUseBlock)
    (h : lookupTool reg tb.name = none) :
    handle_tool reg m tb = .error ("Unknown tool: " ++ tb.name) ∧
    (∀ rest, process_response reg m (.toolUse tb.id tb.name tb.input :: rest) =
      .error ("Unknown tool: " ++ tb.name)) ∧
    (∀ msgs content rest more,
      send_message reg m msgs content ((.toolUse tb.id tb.name tb.input :: rest) :: more) =
        (msgs ++ [⟨"user", .str content⟩], 1)) := by
  have h1 : handle_tool reg m tb = .error ("Unknown tool: " ++ tb.name) := by
    unfold handle_tool
    rw [h]
  have h2 : ∀ rest, process_response reg m (.toolUse tb.id tb.name tb.input :: rest) =
      .error ("Unknown tool: " ++ tb.name) := by
    intro rest
    simp only [process_response]
    rw [show handle_tool reg m ⟨tb.id, tb.name, tb.input⟩ =
      .error ("Unknown tool: " ++ tb.name) from h1]
  refine ⟨h1, h2, ?_⟩
  intro msgs content rest more
  unfold send_message
  simp only [sendRounds, h2]

/-- Witness for C2's amended theorem: dispatching "bar" against the empty
registry. -/
theorem handle_tool_unknown_witness :
    handle_tool [] [] ⟨"toolu_02", "bar", []⟩ = .error "Unknown tool: bar" :=
  (handle_tool_unknown [] [] ⟨"toolu_02", "bar", []⟩ rfl).1

/-- Counterexample for C2 as stated: dispatching the unregistered name
"foo" does not return any `ToolResult` — `handle_tool` is not `ok` at
this input; it raises (`Except.error`) with the unknown-tool message,
escaping the dispatch boundary. -/
theorem handle_tool_unknown_foo_cex :
    handle_tool [] [] ⟨"toolu_01", "foo", []⟩ = .error "Unknown tool: foo" ∧
    (handle_tool [] [] ⟨"toolu_01", "foo", []⟩).isOk = false := by
  constructor
  · rfl
  · rfl

theorem process_two_tools (reg : Registry) (m : ResultsMap)
    (id1 n1 id2 n2 : String) (in1 in2 : ToolInput) (t1 t2 : Tool)
    (r1 : ToolResult) (e : String)
    (h1 : lookupTool reg n1 = some t1) (hr1 : t1 in1 = .ok r1)
    (h2 : lookupTool reg n2 = some t2) (hr2 : t2 in2 = .error e) :
    process_response reg m [.toolUse id1 n1 in1, .toolUse id2 n2 in2] =
      .ok (⟨[.toolUse id1 n1 in1, .toolUse id2 n2 in2], true,
            [mkToolEntry id1 r1, mkToolEntry id2 { error := some e }]⟩,
           storeResult (storeResult m id1 r1) id2 { error := some e }) := by
  simp only [process_response, handle_tool, h1, hr1, h2, hr2, get_tool_result_store]

theorem mkToolEntry_error_is_error (id : String) (e : String) :
    (mkToolEntry id { error := some e } : TRBlock).is_error = true := by
  by_cases he : e = "" <;>
    simp [mkToolEntry, ToolResult.truthy, strTruthy, he]

/-- Claim C5: a turn whose first response invokes two registered tools,
the second of which raises: the exception is caught and converted into
an error tool result, both invocations produce tool-result entries in
the order their tool-use blocks appeared, and the turn proceeds to a
second model call (2 calls in total) with both results in the appended
user message. -/
theorem send_message_two_tools_second_raises (reg : Registry) (m : ResultsMap)
    (id1 n1 id2 n2 : String) (in1 in2 : ToolInput) (t1 t2 : Tool)
    (r1 : ToolResult) (e : String) (msgs : List Msg) (content : String)
    (resp2 : List RespBlock)
    (h1 : lookupTool reg n1 = some t1) (hr1 : t1 in1 = .ok r1)
    (h2 : lookupTool reg n2 = some t2) (hr2 : t2 in2 = .error e)
    (hresp2 : ∀ b ∈ resp2, b.isToolUse = false) :
    send_message reg m msgs content [[.toolUse id1 n1 in1, .toolUse id2 n2 in2], resp2] =
      (msgs ++ [⟨"user", .str content⟩,
                ⟨"assistant", .blocks [.toolUse id1 n1 in1, .toolUse id2 n2 in2]⟩,
                ⟨"user", .toolResults [mkToolEntry id1 r1,
                                       mkToolEntry id2 { error := some e }]⟩,
                ⟨"assistant", .blocks (textOnly resp2)⟩], 2) ∧
    (mkToolEntry id1 r1).tool_use_id = id1 ∧
    (mkToolEntry id2 { error := some e } : TRBlock).tool_use_id = id2 ∧
    (mkToolEntry id2 { error := some e } : TRBlock).is_error = true := by
  refine ⟨?_, mkToolEntry_id id1 r1, mkToolEntry_id id2 _, mkToolEntry_error_is_error id2 e⟩
  unfold send_message
  simp only [sendRounds, process_two_tools reg m id1 n1 id2 n2 in1 in2 t1 t2 r1 e h1 hr1 h2 hr2]
  simp only [process_response_no_tools reg resp2 _ hresp2]
  simp [toolUserContent, List.append_assoc]

/-- Witness for C5: the sample registry, first tool succeeding with
output, second raising "boom", then a text-only response. -/
theorem send_message_two_tools_second_raises_witness :
    send_message demoReg [] [] "go" [[.toolUse "id1" "t1" [], .toolUse "id2" "t2" []],
                                     [.text "done"]] =
      ([] ++ [⟨"user", .str "go"⟩,
              ⟨"assistant", .blocks [.toolUse "id1" "t1" [], .toolUse "id2" "t2" []]⟩,
              ⟨"user", .toolResults [mkToolEntry "id1" { output := some "ok1" },
                                     mkToolEntry "id2" { error := some "boom" }]⟩,
              ⟨"assistant", .blocks (textOnly [.text "done"])⟩], 2) ∧
    (mkToolEntry "id1" { output := some "ok1" } : TRBlock).tool_use_id = "id1" ∧
    (mkToolEntry "id2" { error := some "boom" } : TRBlock).tool_use_id = "id2" ∧
    (mkToolEntry "id2" { error := some "boom" } : TRBlock).is_error = true :=
  send_message_two_tools_second_raises demoReg [] "id1" "t1" "id2" "t2" [] []
    demoT1 demoT2 { output := some "ok1" } "boom" [] "go" [.text "done"]
    rfl rfl rfl rfl (by decide)

/-- Claim C6 (code bug): at the concrete failing input — a client whose
conversation holds one user message — `clear_conversation` resets the
cache statistics to their zero value and empties the stored tool
results, but leaves `self.messages` untouched: the conversation is not
emptied, contradicting both the claim and the code's own
"Conversation and cache cleared." message. -/
theorem clear_conversation_leaves_messages :
    (clear_conversation ⟨[⟨"user", .str "hi"⟩], {}, []⟩).cache.stats = ({} : CacheStats) ∧
    (clear_conversation ⟨[⟨"user", .str "hi"⟩], {}, []⟩).cache.last_user_message = none ∧
    (clear_conversation ⟨[⟨"user", .str "hi"⟩], {}, []⟩).tool_results = [] ∧
    (clear_conversation ⟨[⟨"user", .str "hi"⟩], {}, []⟩).messages = [⟨"user", .str "hi"⟩] ∧
    (clear_conversation ⟨[⟨"user", .str "hi"⟩], {}, []⟩).messages ≠ [] := by
  refine ⟨rfl, rfl, rfl, rfl, by decide⟩

theorem mkToolEntry_content_ne (id : String) (r : ToolResult) :
    (mkToolEntry id r).content ≠ "" := by
  unfold mkToolEntry
  split
  · simp only
    split
    · intro hcontra
      have hlen := congrArg String.length hcontra
      rw [String.length_append] at hlen
      have h7 : ("Error: " : String).length = 7 := rfl
      have h0 : ("" : String).length = 0 := rfl
      omega
    · split
      · rename_i hout
        cases hro : r.output with
        | none => rw [hro] at hout; exact absurd hout (by simp [strTruthy])
        | some s =>
          rw [hro] at hout
          simp only [strTruthy, decide_eq_true_eq] at hout
          simp [hro, hout]
      · show "Success but no output" ≠ ""
        decide
  · show "Tool execution failed to produce a result" ≠ ""
    decide

/-- Claim C7: every tool-result block that `process_response` formats for
the model has non-empty content — a success with no output is normalized
to the explicit "Success but no output" marker, a missing or all-empty
stored result to the explicit failure marker — and whenever tool calls
occurred the tool-result list itself is non-empty. -/
theorem process_tool_content_nonempty (reg : Registry) :
    ∀ (resp : List RespBlock) (m : ResultsMap) (mr : MessageResult) (m' : ResultsMap),
      process_response reg m resp = .ok (mr, m') →
      (mr.tool_content.all fun en => en.content ≠ "") = true ∧
      (mr.has_tool_calls = true → mr.tool_content ≠ []) := by
  intro resp
  induction resp with
  | nil =>
    intro m mr m' h
    simp only [process_response, Except.ok.injEq, Prod.mk.injEq] at h
    obtain ⟨h1, h2⟩ := h
    rw [← h1]
    simp
  | cons b rest ih =>
    intro m mr m' h
    cases b with
    | text t =>
      simp only [process_response] at h
      cases hpr : process_response reg m rest with
      | error e => rw [hpr] at h; exact absurd h (by simp)
      | ok p =>
        obtain ⟨mr0, m0⟩ := p
        rw [hpr] at h
        simp only [Except.ok.injEq, Prod.mk.injEq] at h
        obtain ⟨h1, h2⟩ := h
        obtain ⟨ha, hb⟩ := ih m mr0 m0 hpr
        rw [← h1]
        exact ⟨ha, hb⟩
    | toolUse id name input =>
      simp only [process_response] at h
      cases hht : handle_tool reg m ⟨id, name, input⟩ with
      | error e => rw [hht] at h; exact absurd h (by simp)
      | ok m1 =>
        rw [hht] at h
        simp only at h
        cases hpr : process_response reg m1 rest with
        | error e => rw [hpr] at h; exact absurd h (by simp)
        | ok p =>
          obtain ⟨mr0, m0⟩ := p
          rw [hpr] at h
          simp only [Except.ok.injEq, Prod.mk.injEq] at h
          obtain ⟨h1, h2⟩ := h
          obtain ⟨ha, hb⟩ := ih m1 mr0 m0 hpr
          rw [← h1]
          constructor
          · simp only [List.all_cons, Bool.and_eq_true]
            exact ⟨by simpa using mkToolEntry_content_ne id (get_tool_result m1 id), ha⟩
          · intro _
            simp
    | other k =>
      simp only [process_response] at h
      cases hpr : process_response reg m rest with
      | error e => rw [hpr] at h; exact absurd h (by simp)
      | ok p =>
        obtain ⟨mr0, m0⟩ := p
        rw [hpr] at h
        simp only [Except.ok.injEq, Prod.mk.injEq] at h
        obtain ⟨h1, h2⟩ := h
        rw [← h1]
        exact ih m mr0 m0 hpr

/-- Witness for C7: the two-tool sample response. -/
theorem process_tool_content_nonempty_witness :
    (demoMR.tool_content.all fun en => en.content ≠ "") = true ∧
    (demoMR.has_tool_calls = true → demoMR.tool_content ≠ []) :=
  process_tool_content_nonempty demoReg demoResp [] demoMR demoMap rfl

/-- Claim C8: a turn whose first model response contains no
tool-invocation blocks makes exactly one model call and grows the
conversation by exactly two messages — the appended user message and one
assistant message (holding the response's text blocks). -/
theorem send_message_no_tools (reg : Registry) (m : ResultsMap) (msgs : List Msg)
    (content : String) (resp : List RespBlock) (rest : List (List RespBlock))
    (h : ∀ b ∈ resp, b.isToolUse = false) :
    send_message reg m msgs content (resp :: rest) =
      (msgs ++ [⟨"user", .str content⟩, ⟨"assistant", .blocks (textOnly resp)⟩], 1) := by
  unfold send_message
  simp only [sendRounds, process_response_no_tools reg resp m h]
  simp [List.append_assoc]

/-- Witness for C8: a single text-only response. -/
theorem send_message_no_tools_witness :
    send_message demoReg [] [] "hey" [[.text "yo"]] =
      ([] ++ [⟨"user", .str "hey"⟩, ⟨"assistant", .blocks (textOnly [.text "yo"])⟩], 1) :=
  send_message_no_tools demoReg [] [] "hey" [.text "yo"] [] (by decide)

end CClient
